import Mathlib

/-!
# Verification of the Warden trust-agent graph engine

Shallow embedding of the trust-propagation solver (`src/core/eigentrust.ts`),
the score classification helpers (`src/utils/helpers.ts`) and the path-finder
layer (`src/services/graph.service.ts`, `TrustPathTool`) of the
`warden-trust-agent` repository, together with proofs of the specified
properties.

JavaScript `number` (IEEE double) arithmetic is embedded as exact rational
arithmetic over `ℚ`; the specified tolerances (`1e-6`, the convergence
threshold) absorb the rounding the embedding does not model.  JS `Map` /
`Set` objects are embedded as association lists / duplicate-free lists in
insertion order.
-/

namespace Warden

/-- A trust edge, `TrustEdge` from `src/types/index.ts`:
directed relationship `from -> to` with a real-valued weight, a provenance
tag and a timestamp.  (`from` is a Lean keyword, hence the field name
`from_`.) -/
structure TrustEdge where
  from_ : String
  to_ : String
  weight : ℚ
  source : String
  timestamp : Int
deriving DecidableEq, Repr

/-- Solver configuration, `EigenTrustConfig` from `src/types/index.ts`. -/
structure EigenTrustConfig where
  maxIterations : Nat
  convergenceThreshold : ℚ
  preTrustedWeight : ℚ
  decayFactor : ℚ
deriving DecidableEq, Repr

/-- `DEFAULT_CONFIG` from `src/core/eigentrust.ts` lines 23-28. -/
def DEFAULT_CONFIG : EigenTrustConfig :=
  { maxIterations := 50
    convergenceThreshold := 1/10000
    preTrustedWeight := 1/10
    decayFactor := 85/100 }

/-- Result of a solver run, `EigenTrustResult` from `src/types/index.ts`.
The JS `Map<string, number>` is embedded as an association list in
insertion order. -/
structure EigenTrustResult where
  scores : List (String × ℚ)
  iterations : Nat
  converged : Bool
deriving DecidableEq, Repr

/-- One step of the JS `Set` insertion used in `compute` lines 49-53:
a `Set` keeps first-occurrence insertion order. -/
def insertNode (acc : List String) (x : String) : List String :=
  if x ∈ acc then acc else acc ++ [x]

/-- The distinct node list collected from all edge endpoints
(`compute` lines 49-54: `nodeSet.add(edge.from); nodeSet.add(edge.to_)`,
then `Array.from(nodeSet)`). -/
def nodesOf (edges : List TrustEdge) : List String :=
  edges.foldl (fun acc e => insertNode (insertNode acc e.from_) e.to_) []

/-- One step of the raw-matrix population loop
(`buildNormalizedTrustMatrix` lines 165-171): writes the clamped weight
`max 0 e.weight` at `(i, j)` when both endpoints resolve to indices and
`i ≠ j` (self-loops excluded).  `nodes.indexOf` models `nodeIndex.get`
(it returns `nodes.length`, i.e. "undefined", for an absent address). -/
def rawStep (nodes : List String) (M : Nat → Nat → ℚ) (e : TrustEdge) : Nat → Nat → ℚ :=
  if nodes.indexOf e.from_ < nodes.length ∧ nodes.indexOf e.to_ < nodes.length ∧
      nodes.indexOf e.from_ ≠ nodes.indexOf e.to_ then
    fun a b =>
      if a = nodes.indexOf e.from_ ∧ b = nodes.indexOf e.to_ then max 0 e.weight else M a b
  else M

/-- The raw (un-normalized) trust matrix after the population loop of
`buildNormalizedTrustMatrix` (lines 160-171); entries outside
`[0, nodes.length) × [0, nodes.length)` stay `0`.  A later edge for the
same ordered pair overwrites an earlier one, as `matrix[i][j] = ...` does. -/
def rawMatrix (edges : List TrustEdge) (nodes : List String) : Nat → Nat → ℚ :=
  edges.foldl (rawStep nodes) (fun _ _ => 0)

/-- Row sum of a matrix over the first `n` columns
(`buildNormalizedTrustMatrix` lines 175-178). -/
def rowSum (n : Nat) (M : Nat → Nat → ℚ) (i : Nat) : ℚ :=
  ∑ j in Finset.range n, M i j

/-- `buildNormalizedTrustMatrix` from `src/core/eigentrust.ts` lines 154-194:
rows with a positive sum are divided by that sum, rows summing to zero are
replaced by the uniform row `1/|N|` (dangling-node handling). -/
def buildNormalizedTrustMatrix (edges : List TrustEdge) (nodes : List String) :
    Nat → Nat → ℚ :=
  fun i j =>
    let M := rawMatrix edges nodes
    let s := rowSum nodes.length M i
    if 0 < s then M i j / s else 1 / (nodes.length : ℚ)

/-- The pre-trust distribution vector `p` (`compute` lines 68-82): with a
non-empty pre-trusted list each pre-trusted address *present in the graph*
gets `1/|preTrusted|` (absent addresses are silently skipped by the
`idx !== undefined` check); with an empty pre-trusted list `p` is uniform
`1/n`.  The JS `Set<string>` is embedded as a duplicate-free list. -/
def preVector (nodes : List String) (preTrusted : List String) : Nat → ℚ :=
  if 0 < preTrusted.length then
    fun i =>
      if i < nodes.length ∧ nodes.getD i "" ∈ preTrusted then
        1 / (preTrusted.length : ℚ)
      else 0
  else fun _ => 1 / (nodes.length : ℚ)

/-- One propagation step (`compute` lines 93-103):
`tNew[j] = (1 - a) * p[j] + a * Σ_i C[i][j] * t[i]`. -/
def stepVec (n : Nat) (C : Nat → Nat → ℚ) (p : Nat → ℚ) (a : ℚ) (t : Nat → ℚ) :
    Nat → ℚ :=
  fun j => (1 - a) * p j + a * ∑ i in Finset.range n, C i j * t i

/-- L1 norm of the difference of two iterates (`compute` lines 106-109). -/
def l1diff (n : Nat) (t tNew : Nat → ℚ) : ℚ :=
  ∑ i in Finset.range n, |tNew i - t i|

/-- The iterate sequence `t_0 = p`, `t_{k+1} = step t_k` of the solver. -/
def iterSeq (n : Nat) (C : Nat → Nat → ℚ) (p : Nat → ℚ) (a : ℚ) : Nat → (Nat → ℚ)
  | 0 => p
  | k + 1 => stepVec n C p a (iterSeq n C p a k)

/-- The `while (iterations < maxIterations)` loop of `compute`
(lines 92-118), with `fuel = maxIterations - iterations` remaining
allowed iterations.  Returns the final vector, the iteration count and
the convergence flag. -/
def loopGo (n : Nat) (C : Nat → Nat → ℚ) (p : Nat → ℚ) (a th : ℚ) :
    Nat → (Nat → ℚ) → Nat → (Nat → ℚ) × Nat × Bool
  | 0, t, iters => (t, iters, false)
  | fuel + 1, t, iters =>
    let tNew := stepVec n C p a t
    let diff := l1diff n t tNew
    if diff < th then (tNew, iters + 1, true)
    else loopGo n C p a th fuel tNew (iters + 1)

/-- `EigenTrustEngine.compute` from `src/core/eigentrust.ts` lines 44-127. -/
def compute (cfg : EigenTrustConfig) (edges : List TrustEdge)
    (preTrusted : List String) : EigenTrustResult :=
  let nodes := nodesOf edges
  let n := nodes.length
  if n = 0 then { scores := [], iterations := 0, converged := true }
  else
    let C := buildNormalizedTrustMatrix edges nodes
    let p := preVector nodes preTrusted
    let r := loopGo n C p cfg.decayFactor cfg.convergenceThreshold cfg.maxIterations p 0
    { scores := (List.range n).map (fun i => (nodes.getD i "", r.1 i))
      iterations := r.2.1
      converged := r.2.2 }

/-- JS `String.prototype.toLowerCase`, modelled characterwise over the
string's characters (the addresses this system handles are ASCII). -/
def toLowerStr (s : String) : String :=
  ⟨s.data.map Char.toLower⟩

/-- `EigenTrustEngine.scoreFor` from `src/core/eigentrust.ts` lines 133-135:
`result.scores.get(address.toLowerCase()) ?? 0`. -/
def scoreFor (result : EigenTrustResult) (address : String) : ℚ :=
  match result.scores.lookup (toLowerStr address) with
  | some v => v
  | none => 0

/-! ## Basic lemmas about node collection -/

lemma mem_insertNode {x : String} {acc : List String} (y : String) (h : x ∈ acc) :
    x ∈ insertNode acc y := by
  unfold insertNode
  split
  · exact h
  · exact List.mem_append_left _ h

lemma self_mem_insertNode (acc : List String) (y : String) : y ∈ insertNode acc y := by
  unfold insertNode
  split
  · assumption
  · exact List.mem_append_right _ (List.mem_singleton.mpr rfl)

lemma mem_foldl_insert {x : String} :
    ∀ (edges : List TrustEdge) (acc : List String), x ∈ acc →
      x ∈ edges.foldl (fun acc e => insertNode (insertNode acc e.from_) e.to_) acc
  | [], _, h => h
  | _ :: es, _, h => mem_foldl_insert es _ (mem_insertNode _ (mem_insertNode _ h))

lemma nodesOf_ne_nil {edges : List TrustEdge} (h : edges ≠ []) : nodesOf edges ≠ [] := by
  match edges, h with
  | e :: es, _ =>
    have hmem : e.from_ ∈ nodesOf (e :: es) := by
      unfold nodesOf
      rw [List.foldl_cons]
      exact mem_foldl_insert es _ (mem_insertNode _ (self_mem_insertNode [] e.from_))
    exact List.ne_nil_of_mem hmem

lemma insertNode_nodup {acc : List String} (h : acc.Nodup) (y : String) :
    (insertNode acc y).Nodup := by
  by_cases hy : y ∈ acc
  · simpa [insertNode, hy] using h
  · simp [insertNode, hy, List.nodup_append, h]

lemma foldl_insert_nodup :
    ∀ (edges : List TrustEdge) (acc : List String), acc.Nodup →
      (edges.foldl (fun acc e => insertNode (insertNode acc e.from_) e.to_) acc).Nodup
  | [], _, h => h
  | _ :: es, _, h => foldl_insert_nodup es _ (insertNode_nodup (insertNode_nodup h _) _)

lemma nodesOf_nodup (edges : List TrustEdge) : (nodesOf edges).Nodup :=
  foldl_insert_nodup edges [] List.nodup_nil

/-! ## Lemmas about the raw trust matrix -/

lemma rawStep_cases (nodes : List String) (M : Nat → Nat → ℚ) (e : TrustEdge) (a b : Nat) :
    rawStep nodes M e a b = M a b ∨ rawStep nodes M e a b = max 0 e.weight := by
  unfold rawStep
  by_cases h1 : nodes.indexOf e.from_ < nodes.length ∧ nodes.indexOf e.to_ < nodes.length ∧
      nodes.indexOf e.from_ ≠ nodes.indexOf e.to_
  · rw [if_pos h1]
    by_cases h2 : a = nodes.indexOf e.from_ ∧ b = nodes.indexOf e.to_
    · right; simp [h2]
    · left; simp [h2]
  · left; rw [if_neg h1]

lemma rawStep_diag (nodes : List String) (M : Nat → Nat → ℚ) (e : TrustEdge) (a : Nat) :
    rawStep nodes M e a a = M a a := by
  unfold rawStep
  split
  · next h1 =>
    have : ¬(a = nodes.indexOf e.from_ ∧ a = nodes.indexOf e.to_) := by
      rintro ⟨rfl, hj⟩
      exact h1.2.2 hj
    simp [this]
  · rfl

lemma foldl_rawStep_nonneg (nodes : List String) :
    ∀ (edges : List TrustEdge) (M : Nat → Nat → ℚ), (∀ a b, 0 ≤ M a b) →
      ∀ a b, 0 ≤ (edges.foldl (rawStep nodes) M) a b
  | [], _, hM, a, b => hM a b
  | e :: es, M, hM, a, b => by
    rw [List.foldl_cons]
    refine foldl_rawStep_nonneg nodes es _ (fun a b => ?_) a b
    rcases rawStep_cases nodes M e a b with h | h
    · rw [h]; exact hM a b
    · rw [h]; exact le_max_left 0 _

lemma rawMatrix_nonneg (edges : List TrustEdge) (nodes : List String) (a b : Nat) :
    0 ≤ rawMatrix edges nodes a b :=
  foldl_rawStep_nonneg nodes edges _ (fun _ _ => le_refl 0) a b

lemma foldl_rawStep_diag (nodes : List String) :
    ∀ (edges : List TrustEdge) (M : Nat → Nat → ℚ) (a : Nat),
      (edges.foldl (rawStep nodes) M) a a = M a a
  | [], _, _ => rfl
  | e :: es, M, a => by
    rw [List.foldl_cons, foldl_rawStep_diag nodes es _ a, rawStep_diag]

lemma rawMatrix_diag (edges : List TrustEdge) (nodes : List String) (a : Nat) :
    rawMatrix edges nodes a a = 0 :=
  foldl_rawStep_diag nodes edges _ a

lemma rowSum_nonneg (edges : List TrustEdge) (nodes : List String) (n i : Nat) :
    0 ≤ rowSum n (rawMatrix edges nodes) i :=
  Finset.sum_nonneg (fun j _ => rawMatrix_nonneg edges nodes i j)

/-- Every row of the normalized trust matrix sums to `1` (the conservation
property of the dangling-node policy). -/
lemma buildMatrix_row_sum (edges : List TrustEdge) (nodes : List String)
    (h : 0 < nodes.length) (i : Nat) :
    ∑ j in Finset.range nodes.length, buildNormalizedTrustMatrix edges nodes i j = 1 := by
  unfold buildNormalizedTrustMatrix
  by_cases hs : 0 < rowSum nodes.length (rawMatrix edges nodes) i
  · simp only [if_pos hs]
    rw [← Finset.sum_div]
    unfold rowSum
    rw [div_self]
    unfold rowSum at hs
    exact ne_of_gt hs
  · simp only [if_neg hs]
    rw [Finset.sum_const, Finset.card_range, nsmul_eq_mul, mul_one_div, div_self]
    exact_mod_cast h.ne'

/-! ## Mass conservation of the propagation step -/

lemma stepVec_sum (n : Nat) (C : Nat → Nat → ℚ) (p : Nat → ℚ) (a : ℚ) (t : Nat → ℚ)
    (hC : ∀ i, ∑ j in Finset.range n, C i j = 1) :
    ∑ j in Finset.range n, stepVec n C p a t j
      = (1 - a) * (∑ j in Finset.range n, p j) + a * (∑ i in Finset.range n, t i) := by
  unfold stepVec
  rw [Finset.sum_add_distrib, ← Finset.mul_sum, ← Finset.mul_sum]
  congr 1
  congr 1
  rw [Finset.sum_comm]
  refine Finset.sum_congr rfl (fun i _ => ?_)
  rw [← Finset.sum_mul, hC i, one_mul]

lemma iterSeq_sum (n : Nat) (C : Nat → Nat → ℚ) (p : Nat → ℚ) (a : ℚ)
    (hC : ∀ i, ∑ j in Finset.range n, C i j = 1) :
    ∀ k, ∑ i in Finset.range n, iterSeq n C p a k i = ∑ i in Finset.range n, p i
  | 0 => rfl
  | k + 1 => by
    show ∑ i in Finset.range n, stepVec n C p a (iterSeq n C p a k) i = _
    rw [stepVec_sum n C p a _ hC, iterSeq_sum n C p a hC k]
    ring

lemma loopGo_sum (n : Nat) (C : Nat → Nat → ℚ) (p : Nat → ℚ) (a th : ℚ)
    (hC : ∀ i, ∑ j in Finset.range n, C i j = 1) :
    ∀ (fuel : Nat) (t : Nat → ℚ) (iters : Nat),
      ∑ i in Finset.range n, t i = ∑ i in Finset.range n, p i →
      ∑ i in Finset.range n, (loopGo n C p a th fuel t iters).1 i
        = ∑ i in Finset.range n, p i
  | 0, _, _, h => h
  | fuel + 1, t, iters, h => by
    have hstep : ∑ i in Finset.range n, stepVec n C p a t i
        = ∑ i in Finset.range n, p i := by
      rw [stepVec_sum n C p a t hC, h]; ring
    unfold loopGo
    dsimp only
    split
    · exact hstep
    · exact loopGo_sum n C p a th hC fuel _ (iters + 1) hstep

lemma loopGo_iters (n : Nat) (C : Nat → Nat → ℚ) (p : Nat → ℚ) (a th : ℚ) :
    ∀ (fuel : Nat) (t : Nat → ℚ) (iters : Nat),
      (loopGo n C p a th fuel t iters).2.1 ≤ iters + fuel
  | 0, _, _ => by simp [loopGo]
  | fuel + 1, t, iters => by
    unfold loopGo
    dsimp only
    split
    · simp
    · have := loopGo_iters n C p a th fuel (stepVec n C p a t) (iters + 1)
      omega

/-! ## Sums over list ranges and indicator counting -/

lemma sum_list_range (n : Nat) (f : Nat → ℚ) :
    ((List.range n).map f).sum = ∑ i in Finset.range n, f i := by
  induction n with
  | zero => simp
  | succ m ih =>
    rw [List.range_succ, List.map_append, List.sum_append, Finset.sum_range_succ, ih]
    simp

lemma sum_indicator_getD (pt : List String) (c : ℚ) :
    ∀ l : List String,
      (∑ i in Finset.range l.length,
          if i < l.length ∧ l.getD i "" ∈ pt then c else 0)
        = (l.countP (fun x => decide (x ∈ pt)) : ℚ) * c
  | [] => by simp
  | x :: xs => by
    rw [List.length_cons, Finset.sum_range_succ']
    have h0 : (if 0 < xs.length + 1 ∧ (x :: xs).getD 0 "" ∈ pt then c else 0)
        = if x ∈ pt then c else 0 := by
      simp [Nat.succ_pos]
    have hsucc : ∀ i ∈ Finset.range xs.length,
        (if i + 1 < xs.length + 1 ∧ (x :: xs).getD (i + 1) "" ∈ pt then c else 0)
          = if i < xs.length ∧ xs.getD i "" ∈ pt then c else 0 := by
      intro i _
      simp [Nat.add_lt_add_iff_right]
    rw [Finset.sum_congr rfl hsucc, sum_indicator_getD pt c xs, h0, List.countP_cons]
    by_cases hx : x ∈ pt
    · simp only [hx, decide_True, if_pos hx]
      push_cast
      ring
    · simp [hx]

lemma countP_mem_swap {l₁ l₂ : List String} (h₁ : l₁.Nodup) (h₂ : l₂.Nodup) :
    l₁.countP (fun x => decide (x ∈ l₂)) = l₂.countP (fun x => decide (x ∈ l₁)) := by
  rw [List.countP_eq_length_filter, List.countP_eq_length_filter]
  have hf₁ : (l₁.filter (fun x => decide (x ∈ l₂))).Nodup := h₁.filter _
  have hf₂ : (l₂.filter (fun x => decide (x ∈ l₁))).Nodup := h₂.filter _
  rw [← List.toFinset_card_of_nodup hf₁, ← List.toFinset_card_of_nodup hf₂]
  congr 1
  rw [List.toFinset_filter, List.toFinset_filter]
  ext x
  simp [and_comm]

/-! ## Sums of the pre-trust vector -/

lemma preVector_sum_nil (nodes : List String) (h : 0 < nodes.length) :
    ∑ i in Finset.range nodes.length, preVector nodes [] i = 1 := by
  unfold preVector
  rw [if_neg (by simp)]
  rw [Finset.sum_const, Finset.card_range, nsmul_eq_mul, mul_one_div, div_self]
  exact_mod_cast h.ne'

lemma preVector_sum (nodes pt : List String) (hpt : pt ≠ []) :
    ∑ i in Finset.range nodes.length, preVector nodes pt i
      = (nodes.countP (fun x => decide (x ∈ pt)) : ℚ) / pt.length := by
  unfold preVector
  rw [if_pos (List.length_pos.mpr hpt), sum_indicator_getD, mul_one_div]

/-- The number of pre-trusted addresses present in the graph, as counted on
either side (both lists being duplicate-free). -/
lemma preVector_sum_count (edges : List TrustEdge) (pt : List String)
    (hpt : pt ≠ []) (hnd : pt.Nodup) :
    ∑ i in Finset.range (nodesOf edges).length, preVector (nodesOf edges) pt i
      = ((pt.filter (fun x => decide (x ∈ nodesOf edges))).length : ℚ) / pt.length := by
  rw [preVector_sum _ _ hpt, countP_mem_swap (nodesOf_nodup edges) hnd,
    List.countP_eq_length_filter]

/-! ## The score list produced by `compute` -/

lemma compute_scores_sum (cfg : EigenTrustConfig) (edges : List TrustEdge)
    (pt : List String) (h : nodesOf edges ≠ []) :
    ((compute cfg edges pt).scores.map Prod.snd).sum
      = ∑ i in Finset.range (nodesOf edges).length, preVector (nodesOf edges) pt i := by
  have hlen : 0 < (nodesOf edges).length := List.length_pos.mpr h
  unfold compute
  rw [if_neg (by omega)]
  dsimp only
  rw [List.map_map]
  have : (Prod.snd ∘ fun i =>
      ((nodesOf edges).getD i "",
        (loopGo (nodesOf edges).length (buildNormalizedTrustMatrix edges (nodesOf edges))
          (preVector (nodesOf edges) pt) cfg.decayFactor cfg.convergenceThreshold
          cfg.maxIterations (preVector (nodesOf edges) pt) 0).1 i))
      = fun i =>
        (loopGo (nodesOf edges).length (buildNormalizedTrustMatrix edges (nodesOf edges))
          (preVector (nodesOf edges) pt) cfg.decayFactor cfg.convergenceThreshold
          cfg.maxIterations (preVector (nodesOf edges) pt) 0).1 i := rfl
  rw [this, sum_list_range]
  exact loopGo_sum _ _ _ _ _ (buildMatrix_row_sum edges (nodesOf edges) hlen)
    cfg.maxIterations _ 0 rfl

/-! ## Characterization of the iteration loop -/

/-- The solver loop, started on the `m`-th iterate, stops at the *first*
index whose L1 distance to the next iterate is below the threshold
(strictly), and otherwise runs out of fuel with `converged = false`. -/
lemma loopGo_eq_find (n : Nat) (C : Nat → Nat → ℚ) (p : Nat → ℚ) (a th : ℚ) :
    ∀ (fuel m : Nat),
      loopGo n C p a th fuel (iterSeq n C p a m) m
        = match (List.range fuel).find?
            (fun k => decide
              (l1diff n (iterSeq n C p a (m + k)) (iterSeq n C p a (m + k + 1)) < th)) with
          | some k => (iterSeq n C p a (m + k + 1), m + k + 1, true)
          | none => (iterSeq n C p a (m + fuel), m + fuel, false)
  | 0, m => by simp [loopGo]
  | fuel + 1, m => by
    rw [List.range_succ_eq_map, List.find?_cons]
    unfold loopGo
    dsimp only
    have hstep : stepVec n C p a (iterSeq n C p a m) = iterSeq n C p a (m + 1) := rfl
    by_cases hd : l1diff n (iterSeq n C p a m) (stepVec n C p a (iterSeq n C p a m)) < th
    · have h0 : decide (l1diff n (iterSeq n C p a (m + 0))
          (iterSeq n C p a (m + 0 + 1)) < th) = true := by
        simp only [Nat.add_zero]
        rw [← hstep]
        exact decide_eq_true hd
      rw [if_pos hd, h0, hstep]
    · have h0 : decide (l1diff n (iterSeq n C p a (m + 0))
          (iterSeq n C p a (m + 0 + 1)) < th) = false := by
        simp only [Nat.add_zero]
        rw [← hstep]
        exact decide_eq_false hd
      rw [if_neg hd, h0, hstep]
      have hcomp : ((fun k => decide
            (l1diff n (iterSeq n C p a (m + k)) (iterSeq n C p a (m + k + 1)) < th))
              ∘ Nat.succ)
          = fun k => decide
            (l1diff n (iterSeq n C p a (m + 1 + k)) (iterSeq n C p a (m + 1 + k + 1)) < th) := by
        funext k
        have e1 : m + Nat.succ k = m + 1 + k := by omega
        simp only [Function.comp_apply, e1]
      rw [List.find?_map, hcomp, loopGo_eq_find n C p a th fuel (m + 1)]
      cases hf : (List.range fuel).find? (fun k => decide
          (l1diff n (iterSeq n C p a (m + 1 + k)) (iterSeq n C p a (m + 1 + k + 1)) < th)) with
      | none =>
        simp only [Option.map_none']
        have e2 : m + 1 + fuel = m + (fuel + 1) := by omega
        rw [e2]
      | some k =>
        simp only [Option.map_some']
        have e3 : m + 1 + k = m + Nat.succ k := by omega
        rw [e3]

/-- Specification-side restatement of the solver, written as the spec
describes it (§4.1 steps 5-8): iterate `t_{k+1} = (1-a)p + a Cᵀ t_k` from
`t_0 = p`, stop with `converged = true` at the first iteration whose L1
distance to the immediately previous iterate is below the threshold, and
otherwise stop after `maxIterations` iterations with `converged = false`.
Used only to be compared against `compute`. -/
def computeSpec (cfg : EigenTrustConfig) (edges : List TrustEdge)
    (preTrusted : List String) : EigenTrustResult :=
  let nodes := nodesOf edges
  let n := nodes.length
  if n = 0 then { scores := [], iterations := 0, converged := true }
  else
    let C := buildNormalizedTrustMatrix edges nodes
    let p := preVector nodes preTrusted
    let T := iterSeq n C p cfg.decayFactor
    match (List.range cfg.maxIterations).find?
        (fun k => decide (l1diff n (T k) (T (k + 1)) < cfg.convergenceThreshold)) with
    | some k =>
      { scores := (List.range n).map (fun i => (nodes.getD i "", T (k + 1) i))
        iterations := k + 1
        converged := true }
    | none =>
      { scores := (List.range n).map (fun i => (nodes.getD i "", T cfg.maxIterations i))
        iterations := cfg.maxIterations
        converged := false }

lemma compute_eq_computeSpec (cfg : EigenTrustConfig) (edges : List TrustEdge)
    (pt : List String) : compute cfg edges pt = computeSpec cfg edges pt := by
  unfold compute computeSpec
  dsimp only
  by_cases h : (nodesOf edges).length = 0
  · rw [if_pos h, if_pos h]
  · rw [if_neg h, if_neg h]
    have hT0 : preVector (nodesOf edges) pt
        = iterSeq (nodesOf edges).length (buildNormalizedTrustMatrix edges (nodesOf edges))
            (preVector (nodesOf edges) pt) cfg.decayFactor 0 := rfl
    have hloop := loopGo_eq_find (nodesOf edges).length
      (buildNormalizedTrustMatrix edges (nodesOf edges))
      (preVector (nodesOf edges) pt) cfg.decayFactor cfg.convergenceThreshold
      cfg.maxIterations 0
    simp only [Nat.zero_add] at hloop
    rw [← hT0] at hloop
    rw [hloop]
    cases hf : (List.range cfg.maxIterations).find? (fun k => decide
        (l1diff (nodesOf edges).length
          (iterSeq (nodesOf edges).length (buildNormalizedTrustMatrix edges (nodesOf edges))
            (preVector (nodesOf edges) pt) cfg.decayFactor k)
          (iterSeq (nodesOf edges).length (buildNormalizedTrustMatrix edges (nodesOf edges))
            (preVector (nodesOf edges) pt) cfg.decayFactor (k + 1))
          < cfg.convergenceThreshold)) with
    | none => rfl
    | some k => rfl

/-! ## Score classification (`src/utils/helpers.ts`) -/

/-- `TrustLevel` from `src/types/index.ts`. -/
inductive TrustLevel
  | unknown
  | suspicious
  | low
  | moderate
  | high
  | very_high
deriving DecidableEq, Repr

/-- `scoreToLevel` from `src/utils/helpers.ts` lines 14-21. -/
def scoreToLevel (score : ℚ) : TrustLevel :=
  if score ≥ 85 then .very_high
  else if score ≥ 70 then .high
  else if score ≥ 50 then .moderate
  else if score ≥ 30 then .low
  else if score ≥ 10 then .suspicious
  else .unknown

/-- Hex-digit test, one character class of the address regex. -/
def isHexDigit (c : Char) : Bool :=
  (decide ('0' ≤ c) && decide (c ≤ '9')) || (decide ('a' ≤ c) && decide (c ≤ 'f'))
    || (decide ('A' ≤ c) && decide (c ≤ 'F'))

/-- `isValidAddress` from `src/utils/helpers.ts` lines 26-28:
the regex `^0x[a-fA-F0-9]\x7b40\x7d$`. -/
def isValidAddress (address : String) : Bool :=
  match address.toList with
  | '0' :: 'x' :: rest => rest.length == 40 && rest.all isHexDigit
  | _ => false

/-! ## Path finder (`src/services/graph.service.ts` and `TrustPathTool`) -/

/-- `GraphPath` from `src/types/index.ts`. -/
structure GraphPath where
  nodes : List String
  edges : List TrustEdge
  totalWeight : ℚ
  hops : Nat
deriving DecidableEq, Repr

/-- Modelled from the spec: the endpoint of a directed walk (stored in
reverse, most recent edge first) starting at `src`.  Part of the model of
the Neo4j `shortestPath` traversal, whose implementation lives in the
graph database, not in this repository. -/
def walkEnd (src : String) (w : List TrustEdge) : String :=
  match w with
  | [] => src
  | e :: _ => e.to_

/-- Modelled from the spec: all directed edge walks of length exactly `l`
starting at `src`, following only the forward trust direction
("Only forward trust direction is traversed", §4.2).  Walks are stored in
reverse (most recent edge first).  Part of the model of the Neo4j
`shortestPath` traversal. -/
def edgeWalksRev (edges : List TrustEdge) (src : String) : Nat → List (List TrustEdge)
  | 0 => [[]]
  | l + 1 =>
    (edgeWalksRev edges src l).flatMap
      (fun w => (edges.filter (fun e => e.from_ == walkEnd src w)).map (fun e => e :: w))

/-- Modelled from the spec: the Neo4j query
`MATCH path = shortestPath((a)-[:TRUSTS*1..maxHops]->(b))` of
`GraphService.findTrustPath` (lines 240-248) — a hop-count-shortest
directed walk of length between `1` and `maxHops`, or `none` when no such
walk exists. -/
def shortestWalk (edges : List TrustEdge) (src dst : String) (maxHops : Nat) :
    Option (List TrustEdge) :=
  (List.range maxHops).findSome? (fun l =>
    ((edgeWalksRev edges src (l + 1)).filter (fun w => walkEnd src w == dst)).head?)

/-- `GraphService.findTrustPath` from `src/services/graph.service.ts`
lines 233-276: the record-packaging (nodes list, edges list,
`totalWeight = sum of weights / edge count`, `hops = edge count`) is the
source's; the underlying traversal is the spec-modelled `shortestWalk`. -/
def findTrustPath (graphEdges : List TrustEdge) (src dst : String) (maxHops : Nat) :
    Option GraphPath :=
  match shortestWalk graphEdges (toLowerStr src) (toLowerStr dst) maxHops with
  | none => none
  | some wrev =>
    some { nodes := toLowerStr src :: wrev.reverse.map (fun e => e.to_)
           edges := wrev.reverse
           totalWeight := (wrev.reverse.map (fun e => e.weight)).sum / (wrev.reverse.length : ℚ)
           hops := wrev.reverse.length }

/-- Which branch of `TrustPathTool.findPath` produced the answer:
rejected for an invalid address (lines 141-146), rejected because both
addresses are equal after lowercasing (lines 148-153), or actually
searched via `GraphService.findTrustPath` (line 159). -/
inductive FindPathOutcome
  | invalid
  | sameAddress
  | searched (path : Option GraphPath)
deriving DecidableEq, Repr

/-- `TrustPathTool.findPath` from `src/utils/helpers.ts` (TrustPathTool
section) lines 136-170, with the explanation strings dropped and the
branch taken made explicit. -/
def findPath (graphEdges : List TrustEdge) (fromAddr toAddr : String) (maxHops : Nat) :
    FindPathOutcome :=
  if ¬(isValidAddress fromAddr && isValidAddress toAddr) then .invalid
  else if toLowerStr fromAddr = toLowerStr toAddr then .sameAddress
  else .searched (findTrustPath graphEdges fromAddr toAddr maxHops)

/-- The path (if any) carried by a `findPath` outcome; the two rejection
branches carry no path. -/
def outcomePath : FindPathOutcome → Option GraphPath
  | .invalid => none
  | .sameAddress => none
  | .searched p => p

/-! ## The raw matrix entry as the last matching edge's clamped weight -/

/-- The value left in `matrix[i][j]` by the population loop: the clamped
weight `max 0 w` of the *last* edge of the list resolving to the ordered
index pair `(i, j)`, or `0` when no edge does. -/
def lastEdgeWeight (edges : List TrustEdge) (nodes : List String) (i j : Nat) : ℚ :=
  match (edges.filter (fun e =>
      decide (nodes.indexOf e.from_ = i) && decide (nodes.indexOf e.to_ = j))).getLast? with
  | some e => max 0 e.weight
  | none => 0

lemma rawMatrix_eq_lastEdgeWeight (nodes : List String) {i j : Nat}
    (hi : i < nodes.length) (hj : j < nodes.length) (hij : i ≠ j)
    (edges : List TrustEdge) :
    rawMatrix edges nodes i j = lastEdgeWeight edges nodes i j := by
  induction edges using List.reverseRecOn with
  | nil => rfl
  | append_singleton es e ih =>
    unfold rawMatrix at ih ⊢
    rw [List.foldl_append, List.foldl_cons, List.foldl_nil]
    unfold lastEdgeWeight at ih ⊢
    rw [List.filter_append]
    by_cases hp : nodes.indexOf e.from_ = i ∧ nodes.indexOf e.to_ = j
    · have hfe : List.filter (fun e =>
          decide (nodes.indexOf e.from_ = i) && decide (nodes.indexOf e.to_ = j)) [e]
            = [e] := by
        simp [hp.1, hp.2]
      rw [hfe, List.getLast?_concat]
      unfold rawStep
      rw [if_pos ⟨hp.1 ▸ hi, hp.2 ▸ hj, by rw [hp.1, hp.2]; exact hij⟩]
      simp [hp.1, hp.2]
    · have hb : (decide (nodes.indexOf e.from_ = i) && decide (nodes.indexOf e.to_ = j))
          = false := by
        by_cases h1 : nodes.indexOf e.from_ = i
        · by_cases h2 : nodes.indexOf e.to_ = j
          · exact absurd ⟨h1, h2⟩ hp
          · simp [h2]
        · simp [h1]
      have hfe : List.filter (fun e =>
          decide (nodes.indexOf e.from_ = i) && decide (nodes.indexOf e.to_ = j)) [e]
            = [] := by
        simp [List.filter, hb]
      rw [hfe, List.append_nil]
      have hval : rawStep nodes (es.foldl (rawStep nodes) (fun _ _ => 0)) e i j
          = (es.foldl (rawStep nodes) (fun _ _ => 0)) i j := by
        unfold rawStep
        split
        · dsimp only
          rw [if_neg]
          rintro ⟨rfl, rfl⟩
          exact hp ⟨rfl, rfl⟩
        · rfl
      rw [hval, ih]

/-! ## Walk lemmas for the path-finder model -/

lemma edgeWalksRev_length (edges : List TrustEdge) (src : String) :
    ∀ (l : Nat) (w : List TrustEdge), w ∈ edgeWalksRev edges src l → w.length = l
  | 0, w, h => by
    simp only [edgeWalksRev, List.mem_singleton] at h
    rw [h]
    rfl
  | l + 1, w, h => by
    simp only [edgeWalksRev, List.mem_flatMap, List.mem_map, List.mem_filter] at h
    obtain ⟨w', hw', e, _, rfl⟩ := h
    rw [List.length_cons, edgeWalksRev_length edges src l w' hw']

lemma shortestWalk_eq_none {edges : List TrustEdge} {src dst : String} {maxHops : Nat}
    (h : ∀ l, l < maxHops → ∀ w ∈ edgeWalksRev edges src (l + 1), walkEnd src w ≠ dst) :
    shortestWalk edges src dst maxHops = none := by
  unfold shortestWalk
  rw [List.findSome?_eq_none_iff]
  intro l hl
  rw [List.head?_eq_none_iff, List.filter_eq_nil_iff]
  intro w hw
  simp only [beq_iff_eq]
  exact h l (List.mem_range.mp hl) w hw

lemma shortestWalk_mem {edges : List TrustEdge} {src dst : String} {maxHops : Nat}
    {wrev : List TrustEdge} (h : shortestWalk edges src dst maxHops = some wrev) :
    ∃ l, l < maxHops ∧ wrev ∈ edgeWalksRev edges src (l + 1) := by
  unfold shortestWalk at h
  obtain ⟨l, hl, hsome⟩ := List.exists_of_findSome?_eq_some h
  obtain ⟨ys, hys⟩ := List.head?_eq_some_iff.mp hsome
  refine ⟨l, List.mem_range.mp hl, ?_⟩
  have : wrev ∈ (edgeWalksRev edges src (l + 1)).filter
      (fun w => walkEnd src w == dst) := by
    rw [hys]
    exact List.mem_cons_self _ _
  exact List.mem_of_mem_filter this

/-! ## Claim theorems -/

/-- **C8.** `scoreToLevel` maps a score `s` to `unknown` when `s < 10`,
`suspicious` when `10 ≤ s < 30`, `low` when `30 ≤ s < 50`, `moderate` when
`50 ≤ s < 70`, `high` when `70 ≤ s < 85`, and `very_high` when `85 ≤ s`;
each tier boundary is inclusive on its lower bound. -/
theorem scoreToLevel_thresholds (s : ℚ) :
    (scoreToLevel s = TrustLevel.unknown ↔ s < 10)
    ∧ (scoreToLevel s = TrustLevel.suspicious ↔ 10 ≤ s ∧ s < 30)
    ∧ (scoreToLevel s = TrustLevel.low ↔ 30 ≤ s ∧ s < 50)
    ∧ (scoreToLevel s = TrustLevel.moderate ↔ 50 ≤ s ∧ s < 70)
    ∧ (scoreToLevel s = TrustLevel.high ↔ 70 ≤ s ∧ s < 85)
    ∧ (scoreToLevel s = TrustLevel.very_high ↔ 85 ≤ s) := by
  unfold scoreToLevel
  split_ifs with h1 h2 h3 h4 h5 <;>
    refine ⟨?_, ?_, ?_, ?_, ?_, ?_⟩ <;>
    constructor <;>
    intro h <;>
    first
      | rfl
      | (exact absurd h (by decide))
      | (exact ⟨by linarith, by linarith⟩)
      | linarith

/-- **C9.** `compute` always terminates (it is a total function of this
embedding) and reports an iteration count bounded by the configured
`maxIterations`; the loop body runs exactly `iterations` times. -/
theorem compute_iterations_bounded (cfg : EigenTrustConfig) (edges : List TrustEdge)
    (pt : List String) : (compute cfg edges pt).iterations ≤ cfg.maxIterations := by
  unfold compute
  dsimp only
  split
  · exact Nat.zero_le _
  · have := loopGo_iters (nodesOf edges).length
      (buildNormalizedTrustMatrix edges (nodesOf edges))
      (preVector (nodesOf edges) pt) cfg.decayFactor cfg.convergenceThreshold
      cfg.maxIterations (preVector (nodesOf edges) pt) 0
    simpa using this

/-- **C4.** For the empty edge list (and any edge list whose node set is
empty) `compute` returns exactly `{scores: {}, iterations: 0,
converged: true}` from the early-return branch, before any matrix
construction or normalization. -/
theorem compute_empty_graph (cfg : EigenTrustConfig) (pt : List String)
    (edges : List TrustEdge) (h : edges = [] ∨ nodesOf edges = []) :
    compute cfg edges pt = { scores := [], iterations := 0, converged := true } := by
  have hn : nodesOf edges = [] := by
    rcases h with rfl | h
    · rfl
    · exact h
  unfold compute
  rw [if_pos]
  rw [hn]
  rfl

/-- Witness for C4 at the concrete input `edges = []`. -/
theorem compute_empty_graph_witness :
    (([] : List TrustEdge) = [] ∨ nodesOf [] = [])
    ∧ compute DEFAULT_CONFIG [] []
        = { scores := [], iterations := 0, converged := true } :=
  ⟨Or.inl rfl, compute_empty_graph DEFAULT_CONFIG [] [] (Or.inl rfl)⟩

/-- **C5 counterexample.** The claim "scoreFor returns the value stored
for `x` when `x` is present" fails: the key `"A"` is present in the score
map with value `1`, yet `scoreFor` returns `0`, because the lookup is done
on `address.toLowerCase()`. -/
theorem scoreFor_counterexample :
    (("A", (1 : ℚ)) ∈
        ({ scores := [("A", (1 : ℚ))], iterations := 1, converged := true }
          : EigenTrustResult).scores)
    ∧ scoreFor { scores := [("A", (1 : ℚ))], iterations := 1, converged := true } "A" = 0 :=
  ⟨List.mem_singleton.mpr rfl, rfl⟩

/-- **C5 (amended).** `scoreFor(result, x)` returns the value stored in
`result.scores` under the *lowercased* form of `x` when that key is
present, returns exactly `0` when it is absent, and never throws (it is a
total function). -/
theorem scoreFor_lowercase_lookup (r : EigenTrustResult) (x : String) :
    (∀ v, r.scores.lookup (toLowerStr x) = some v → scoreFor r x = v)
    ∧ (r.scores.lookup (toLowerStr x) = none → scoreFor r x = 0) := by
  constructor
  · intro v hv
    unfold scoreFor
    rw [hv]
  · intro hv
    unfold scoreFor
    rw [hv]

/-- Witness for C5 (amended): a stored lowercase key is found for an
uppercase query, and an absent key yields `0`. -/
theorem scoreFor_lowercase_lookup_witness :
    (([("a", (2 : ℚ))].lookup (toLowerStr "A") = some 2)
      ∧ scoreFor { scores := [("a", (2 : ℚ))], iterations := 1, converged := true } "A" = 2)
    ∧ (([("a", (2 : ℚ))].lookup (toLowerStr "Z") = (none : Option ℚ))
      ∧ scoreFor { scores := [("a", (2 : ℚ))], iterations := 1, converged := true } "Z" = 0) :=
  ⟨⟨rfl, (scoreFor_lowercase_lookup
      { scores := [("a", (2 : ℚ))], iterations := 1, converged := true } "A").1 2 rfl⟩,
    ⟨rfl, (scoreFor_lowercase_lookup
      { scores := [("a", (2 : ℚ))], iterations := 1, converged := true } "Z").2 rfl⟩⟩

/-- **C3.** The solver uses the defaults `a = 0.85`, threshold `1e-4`,
`maxIterations = 50`, and for every configuration and input `compute`
equals the spec-side `computeSpec`: it iterates
`t_{k+1}[j] = (1-a)p[j] + a Σ_i C[i][j] t_k[i]` from `t_0 = p`, returns
`converged = true` at the first iteration whose L1 distance to the
immediately previous iterate is strictly below the threshold, and
otherwise stops after `maxIterations` iterations with `converged = false`. -/
theorem compute_matches_iteration_spec :
    (DEFAULT_CONFIG.decayFactor = 85/100
      ∧ DEFAULT_CONFIG.convergenceThreshold = 1/10000
      ∧ DEFAULT_CONFIG.maxIterations = 50)
    ∧ ∀ (cfg : EigenTrustConfig) (edges : List TrustEdge) (pt : List String),
        compute cfg edges pt = computeSpec cfg edges pt :=
  ⟨⟨rfl, rfl, rfl⟩, compute_eq_computeSpec⟩

/-- **C1 (amended).** For every non-empty edge list and every pre-trusted
set that is either empty or consists only of addresses appearing as edge
endpoints, if `compute` reports `converged = true` then the scores sum to
`1` within `1e-6` (in this exact-arithmetic embedding the sum is exactly
`1`, for any configuration). -/
theorem mass_conservation (cfg : EigenTrustConfig) (edges : List TrustEdge)
    (pt : List String) (hedges : edges ≠ [])
    (hpt : pt = [] ∨ (pt.Nodup ∧ ∀ x ∈ pt, x ∈ nodesOf edges))
    (hconv : (compute cfg edges pt).converged = true) :
    |((compute cfg edges pt).scores.map Prod.snd).sum - 1| < 1/1000000 := by
  have hne := nodesOf_ne_nil hedges
  have hlen : 0 < (nodesOf edges).length := List.length_pos.mpr hne
  have hsum1 : ∑ i in Finset.range (nodesOf edges).length,
      preVector (nodesOf edges) pt i = 1 := by
    rcases hpt with rfl | ⟨hnd, hsub⟩
    · exact preVector_sum_nil _ hlen
    · by_cases hptnil : pt = []
      · subst hptnil
        exact preVector_sum_nil _ hlen
      · rw [preVector_sum _ _ hptnil]
        have hcount : (nodesOf edges).countP (fun x => decide (x ∈ pt)) = pt.length := by
          rw [countP_mem_swap (nodesOf_nodup edges) hnd]
          exact List.countP_eq_length.mpr (fun a ha => decide_eq_true (hsub a ha))
        rw [hcount, div_self]
        exact_mod_cast (List.length_pos.mpr hptnil).ne'
  rw [compute_scores_sum _ _ _ hne, hsum1]
  norm_num

/-- **C1 counterexample.** With the non-empty edge list `[A -> B]` and the
pre-trusted set `{"C"}` (an address not in the graph), the pre-trust vector
is all zeros, the very first iteration reproduces it exactly, so the solver
returns `converged = true` while the scores sum to `0`, not `1`. -/
theorem mass_conservation_counterexample :
    ([({ from_ := "A", to_ := "B", weight := 1, source := "test", timestamp := 0 }
        : TrustEdge)] ≠ [])
    ∧ (compute DEFAULT_CONFIG
        [{ from_ := "A", to_ := "B", weight := 1, source := "test", timestamp := 0 }]
        ["C"]).converged = true
    ∧ ¬(|((compute DEFAULT_CONFIG
        [{ from_ := "A", to_ := "B", weight := 1, source := "test", timestamp := 0 }]
        ["C"]).scores.map Prod.snd).sum - 1| < 1/1000000) := by
  have hp : preVector
      (nodesOf [{ from_ := "A", to_ := "B", weight := 1, source := "test", timestamp := 0 }])
      ["C"] = fun _ => (0:ℚ) := by
    funext i
    unfold preVector
    rw [if_pos (by decide), if_neg]
    rintro ⟨hlt, hmem⟩
    have hnodes : nodesOf
        [({ from_ := "A", to_ := "B", weight := 1, source := "test", timestamp := 0 }
          : TrustEdge)] = ["A", "B"] := by decide
    rw [hnodes] at hlt hmem
    have hlt2 : i < 2 := by simpa using hlt
    interval_cases i <;> exact absurd hmem (by decide)
  have hstep : stepVec
      (nodesOf [{ from_ := "A", to_ := "B", weight := 1, source := "test", timestamp := 0 }]).length
      (buildNormalizedTrustMatrix
        [{ from_ := "A", to_ := "B", weight := 1, source := "test", timestamp := 0 }]
        (nodesOf [{ from_ := "A", to_ := "B", weight := 1, source := "test", timestamp := 0 }]))
      (fun _ => (0:ℚ)) DEFAULT_CONFIG.decayFactor (fun _ => (0:ℚ)) = fun _ => (0:ℚ) := by
    funext j
    unfold stepVec
    simp
  have hsum : ((compute DEFAULT_CONFIG
      [{ from_ := "A", to_ := "B", weight := 1, source := "test", timestamp := 0 }]
      ["C"]).scores.map Prod.snd).sum = 0 := by
    rw [compute_scores_sum _ _ _ (by decide), hp]
    simp
  refine ⟨by decide, ?_, by rw [hsum]; norm_num⟩
  rw [compute_eq_computeSpec]
  unfold computeSpec
  rw [if_neg (by decide)]
  dsimp only
  rw [hp]
  rw [show DEFAULT_CONFIG.maxIterations = 49 + 1 from rfl, List.range_succ_eq_map,
    List.find?_cons]
  have h1 : iterSeq
      (nodesOf [{ from_ := "A", to_ := "B", weight := 1, source := "test", timestamp := 0 }]).length
      (buildNormalizedTrustMatrix
        [{ from_ := "A", to_ := "B", weight := 1, source := "test", timestamp := 0 }]
        (nodesOf [{ from_ := "A", to_ := "B", weight := 1, source := "test", timestamp := 0 }]))
      (fun _ => (0:ℚ)) DEFAULT_CONFIG.decayFactor 1 = fun _ => (0:ℚ) := hstep
  have hpred : decide (l1diff
      (nodesOf [{ from_ := "A", to_ := "B", weight := 1, source := "test", timestamp := 0 }]).length
      (iterSeq
        (nodesOf [{ from_ := "A", to_ := "B", weight := 1, source := "test", timestamp := 0 }]).length
        (buildNormalizedTrustMatrix
          [{ from_ := "A", to_ := "B", weight := 1, source := "test", timestamp := 0 }]
          (nodesOf [{ from_ := "A", to_ := "B", weight := 1, source := "test", timestamp := 0 }]))
        (fun _ => (0:ℚ)) DEFAULT_CONFIG.decayFactor 0)
      (iterSeq
        (nodesOf [{ from_ := "A", to_ := "B", weight := 1, source := "test", timestamp := 0 }]).length
        (buildNormalizedTrustMatrix
          [{ from_ := "A", to_ := "B", weight := 1, source := "test", timestamp := 0 }]
          (nodesOf [{ from_ := "A", to_ := "B", weight := 1, source := "test", timestamp := 0 }]))
        (fun _ => (0:ℚ)) DEFAULT_CONFIG.decayFactor (0 + 1))
      < DEFAULT_CONFIG.convergenceThreshold) = true := by
    rw [show (0 + 1) = 1 from rfl, h1]
    rw [show iterSeq
      (nodesOf [{ from_ := "A", to_ := "B", weight := 1, source := "test", timestamp := 0 }]).length
      (buildNormalizedTrustMatrix
        [{ from_ := "A", to_ := "B", weight := 1, source := "test", timestamp := 0 }]
        (nodesOf [{ from_ := "A", to_ := "B", weight := 1, source := "test", timestamp := 0 }]))
      (fun _ => (0:ℚ)) DEFAULT_CONFIG.decayFactor 0 = fun _ => (0:ℚ) from rfl]
    refine decide_eq_true ?_
    unfold l1diff
    simp
    norm_num [DEFAULT_CONFIG]
  rw [hpred]


/-- **C10.** When `preTrusted` is non-empty, `compute` silently skips
pre-trusted addresses absent from the graph when building `p`: `p` sums to
`k/|preTrusted|` where `k` is the number of pre-trusted addresses present
as edge endpoints; every iterate, and the returned score vector, has that
same sum, which is strictly less than `1` when `k < |preTrusted|`. -/
theorem preTrust_partial_mass (cfg : EigenTrustConfig) (edges : List TrustEdge)
    (pt : List String) (hedges : edges ≠ []) (hpt : pt ≠ []) (hnd : pt.Nodup) :
    (∑ i in Finset.range (nodesOf edges).length, preVector (nodesOf edges) pt i
        = ((pt.filter (fun x => decide (x ∈ nodesOf edges))).length : ℚ) / pt.length)
    ∧ (∀ m, ∑ i in Finset.range (nodesOf edges).length,
        iterSeq (nodesOf edges).length (buildNormalizedTrustMatrix edges (nodesOf edges))
          (preVector (nodesOf edges) pt) cfg.decayFactor m i
          = ((pt.filter (fun x => decide (x ∈ nodesOf edges))).length : ℚ) / pt.length)
    ∧ ((compute cfg edges pt).scores.map Prod.snd).sum
        = ((pt.filter (fun x => decide (x ∈ nodesOf edges))).length : ℚ) / pt.length
    ∧ ((pt.filter (fun x => decide (x ∈ nodesOf edges))).length < pt.length →
        ((compute cfg edges pt).scores.map Prod.snd).sum < 1) := by
  have hne := nodesOf_ne_nil hedges
  have hlen : 0 < (nodesOf edges).length := List.length_pos.mpr hne
  have hps := preVector_sum_count edges pt hpt hnd
  have hiter : ∀ m, ∑ i in Finset.range (nodesOf edges).length,
      iterSeq (nodesOf edges).length (buildNormalizedTrustMatrix edges (nodesOf edges))
        (preVector (nodesOf edges) pt) cfg.decayFactor m i
        = ((pt.filter (fun x => decide (x ∈ nodesOf edges))).length : ℚ) / pt.length := by
    intro m
    rw [iterSeq_sum _ _ _ _ (buildMatrix_row_sum edges _ hlen) m, hps]
  have hcs : ((compute cfg edges pt).scores.map Prod.snd).sum
      = ((pt.filter (fun x => decide (x ∈ nodesOf edges))).length : ℚ) / pt.length := by
    rw [compute_scores_sum _ _ _ hne, hps]
  refine ⟨hps, hiter, hcs, fun hk => ?_⟩
  rw [hcs, div_lt_one]
  · exact_mod_cast hk
  · exact_mod_cast List.length_pos.mpr hpt

/-- Witness for C1 (amended) at the single-self-loop graph `[A -> A]` with
an empty pre-trusted set: the solver converges in one iteration and the
scores sum to exactly `1`. -/
theorem mass_conservation_witness :
    ([({ from_ := "A", to_ := "A", weight := 1, source := "test", timestamp := 0 }
        : TrustEdge)] ≠ [])
    ∧ (([] : List String) = [] ∨ (([] : List String).Nodup
        ∧ ∀ x ∈ ([] : List String),
            x ∈ nodesOf [{ from_ := "A", to_ := "A", weight := 1, source := "test", timestamp := 0 }]))
    ∧ (compute DEFAULT_CONFIG
        [{ from_ := "A", to_ := "A", weight := 1, source := "test", timestamp := 0 }]
        []).converged = true
    ∧ |((compute DEFAULT_CONFIG
        [{ from_ := "A", to_ := "A", weight := 1, source := "test", timestamp := 0 }]
        []).scores.map Prod.snd).sum - 1| < 1/1000000 := by
  have hnodes : nodesOf
      [({ from_ := "A", to_ := "A", weight := 1, source := "test", timestamp := 0 }
        : TrustEdge)] = ["A"] := by decide
  have hp : preVector (nodesOf
      [{ from_ := "A", to_ := "A", weight := 1, source := "test", timestamp := 0 }]) []
      = fun _ => (1:ℚ) := by
    funext i
    unfold preVector
    rw [if_neg (by decide)]
    rw [hnodes]
    norm_num
  have hraw : rawMatrix
      [{ from_ := "A", to_ := "A", weight := 1, source := "test", timestamp := 0 }]
      (nodesOf [{ from_ := "A", to_ := "A", weight := 1, source := "test", timestamp := 0 }])
      = fun _ _ => (0:ℚ) := rfl
  have hC : ∀ i j, buildNormalizedTrustMatrix
      [{ from_ := "A", to_ := "A", weight := 1, source := "test", timestamp := 0 }]
      (nodesOf [{ from_ := "A", to_ := "A", weight := 1, source := "test", timestamp := 0 }]) i j
      = 1 := by
    intro i j
    unfold buildNormalizedTrustMatrix
    dsimp only
    rw [hraw]
    have hz : rowSum (nodesOf
        [({ from_ := "A", to_ := "A", weight := 1, source := "test", timestamp := 0 }
          : TrustEdge)]).length (fun _ _ => (0:ℚ)) i = 0 := by
      simp [rowSum]
    rw [hz, if_neg (lt_irrefl 0), hnodes]
    norm_num
  have hstep : stepVec (nodesOf
      [{ from_ := "A", to_ := "A", weight := 1, source := "test", timestamp := 0 }]).length
      (buildNormalizedTrustMatrix
        [{ from_ := "A", to_ := "A", weight := 1, source := "test", timestamp := 0 }]
        (nodesOf [{ from_ := "A", to_ := "A", weight := 1, source := "test", timestamp := 0 }]))
      (fun _ => (1:ℚ)) DEFAULT_CONFIG.decayFactor (fun _ => (1:ℚ)) = fun _ => (1:ℚ) := by
    funext j
    unfold stepVec
    rw [show (nodesOf
        [({ from_ := "A", to_ := "A", weight := 1, source := "test", timestamp := 0 }
          : TrustEdge)]).length = 1 from by rw [hnodes]; rfl]
    rw [Finset.sum_range_one, hC 0 j]
    ring
  have hconv : (compute DEFAULT_CONFIG
      [{ from_ := "A", to_ := "A", weight := 1, source := "test", timestamp := 0 }]
      []).converged = true := by
    rw [compute_eq_computeSpec]
    unfold computeSpec
    rw [if_neg (by decide)]
    dsimp only
    rw [hp]
    rw [show DEFAULT_CONFIG.maxIterations = 49 + 1 from rfl, List.range_succ_eq_map,
      List.find?_cons]
    have h1 : iterSeq (nodesOf
        [{ from_ := "A", to_ := "A", weight := 1, source := "test", timestamp := 0 }]).length
        (buildNormalizedTrustMatrix
          [{ from_ := "A", to_ := "A", weight := 1, source := "test", timestamp := 0 }]
          (nodesOf [{ from_ := "A", to_ := "A", weight := 1, source := "test", timestamp := 0 }]))
        (fun _ => (1:ℚ)) DEFAULT_CONFIG.decayFactor 1 = fun _ => (1:ℚ) := hstep
    have hpred : decide (l1diff (nodesOf
        [{ from_ := "A", to_ := "A", weight := 1, source := "test", timestamp := 0 }]).length
        (iterSeq (nodesOf
          [{ from_ := "A", to_ := "A", weight := 1, source := "test", timestamp := 0 }]).length
          (buildNormalizedTrustMatrix
            [{ from_ := "A", to_ := "A", weight := 1, source := "test", timestamp := 0 }]
            (nodesOf [{ from_ := "A", to_ := "A", weight := 1, source := "test", timestamp := 0 }]))
          (fun _ => (1:ℚ)) DEFAULT_CONFIG.decayFactor 0)
        (iterSeq (nodesOf
          [{ from_ := "A", to_ := "A", weight := 1, source := "test", timestamp := 0 }]).length
          (buildNormalizedTrustMatrix
            [{ from_ := "A", to_ := "A", weight := 1, source := "test", timestamp := 0 }]
            (nodesOf [{ from_ := "A", to_ := "A", weight := 1, source := "test", timestamp := 0 }]))
          (fun _ => (1:ℚ)) DEFAULT_CONFIG.decayFactor (0 + 1))
        < DEFAULT_CONFIG.convergenceThreshold) = true := by
      rw [show (0 + 1) = 1 from rfl, h1]
      rw [show iterSeq (nodesOf
          [{ from_ := "A", to_ := "A", weight := 1, source := "test", timestamp := 0 }]).length
          (buildNormalizedTrustMatrix
            [{ from_ := "A", to_ := "A", weight := 1, source := "test", timestamp := 0 }]
            (nodesOf [{ from_ := "A", to_ := "A", weight := 1, source := "test", timestamp := 0 }]))
          (fun _ => (1:ℚ)) DEFAULT_CONFIG.decayFactor 0 = fun _ => (1:ℚ) from rfl]
      refine decide_eq_true ?_
      unfold l1diff
      simp
      norm_num [DEFAULT_CONFIG]
    rw [hpred]
  refine ⟨by decide, Or.inl rfl, hconv, ?_⟩
  exact mass_conservation DEFAULT_CONFIG _ [] (by decide) (Or.inl rfl) hconv


/-- Witness for C10: graph `[A -> A]`, pre-trusted `{"A", "B"}` where `"B"`
is absent from the graph, so the mass present is `k/|preTrusted| = 1/2 < 1`. -/
theorem preTrust_partial_mass_witness :
    ([({ from_ := "A", to_ := "A", weight := 1, source := "test", timestamp := 0 }
        : TrustEdge)] ≠ [])
    ∧ ((["A", "B"] : List String) ≠ [])
    ∧ (["A", "B"] : List String).Nodup
    ∧ ((∑ i in Finset.range (nodesOf
          [{ from_ := "A", to_ := "A", weight := 1, source := "test", timestamp := 0 }]).length,
          preVector (nodesOf
            [{ from_ := "A", to_ := "A", weight := 1, source := "test", timestamp := 0 }])
            ["A", "B"] i
          = (((["A", "B"] : List String).filter (fun x => decide (x ∈ nodesOf
              [{ from_ := "A", to_ := "A", weight := 1, source := "test", timestamp := 0 }]))).length : ℚ)
            / (["A", "B"] : List String).length)
      ∧ (∀ m, ∑ i in Finset.range (nodesOf
            [{ from_ := "A", to_ := "A", weight := 1, source := "test", timestamp := 0 }]).length,
            iterSeq (nodesOf
              [{ from_ := "A", to_ := "A", weight := 1, source := "test", timestamp := 0 }]).length
              (buildNormalizedTrustMatrix
                [{ from_ := "A", to_ := "A", weight := 1, source := "test", timestamp := 0 }]
                (nodesOf [{ from_ := "A", to_ := "A", weight := 1, source := "test", timestamp := 0 }]))
              (preVector (nodesOf
                [{ from_ := "A", to_ := "A", weight := 1, source := "test", timestamp := 0 }])
                ["A", "B"]) DEFAULT_CONFIG.decayFactor m i
            = (((["A", "B"] : List String).filter (fun x => decide (x ∈ nodesOf
                [{ from_ := "A", to_ := "A", weight := 1, source := "test", timestamp := 0 }]))).length : ℚ)
              / (["A", "B"] : List String).length)
      ∧ ((compute DEFAULT_CONFIG
            [{ from_ := "A", to_ := "A", weight := 1, source := "test", timestamp := 0 }]
            ["A", "B"]).scores.map Prod.snd).sum
          = (((["A", "B"] : List String).filter (fun x => decide (x ∈ nodesOf
              [{ from_ := "A", to_ := "A", weight := 1, source := "test", timestamp := 0 }]))).length : ℚ)
            / (["A", "B"] : List String).length
      ∧ (((["A", "B"] : List String).filter (fun x => decide (x ∈ nodesOf
            [{ from_ := "A", to_ := "A", weight := 1, source := "test", timestamp := 0 }]))).length
            < (["A", "B"] : List String).length →
          ((compute DEFAULT_CONFIG
            [{ from_ := "A", to_ := "A", weight := 1, source := "test", timestamp := 0 }]
            ["A", "B"]).scores.map Prod.snd).sum < 1)) :=
  ⟨by decide, by decide, by decide,
    preTrust_partial_mass DEFAULT_CONFIG
      [{ from_ := "A", to_ := "A", weight := 1, source := "test", timestamp := 0 }]
      ["A", "B"] (by decide) (by decide) (by decide)⟩

/-- **C2.** The transition-matrix construction: the population stage stores
at `(i, j)` the negative-clamped weight `max 0 w` of the (last) edge
`i -> j` and forces the diagonal to `0` even when a self-loop edge exists;
the normalization stage divides every row whose clamped sum is positive by
that sum (after which the row sums to `1`) and replaces every row whose
clamped sum is exactly `0` by the uniform row `1/|N|`. -/
theorem trustMatrix_construction (edges : List TrustEdge) (nodes : List String)
    (i j : Nat) (hi : i < nodes.length) (hj : j < nodes.length) :
    rawMatrix edges nodes i i = 0
    ∧ (i ≠ j → rawMatrix edges nodes i j = lastEdgeWeight edges nodes i j)
    ∧ (0 < rowSum nodes.length (rawMatrix edges nodes) i →
        buildNormalizedTrustMatrix edges nodes i j
            = rawMatrix edges nodes i j / rowSum nodes.length (rawMatrix edges nodes) i
          ∧ ∑ k in Finset.range nodes.length, buildNormalizedTrustMatrix edges nodes i k = 1)
    ∧ (rowSum nodes.length (rawMatrix edges nodes) i = 0 →
        buildNormalizedTrustMatrix edges nodes i j = 1 / (nodes.length : ℚ)) := by
  refine ⟨rawMatrix_diag edges nodes i,
    fun hij => rawMatrix_eq_lastEdgeWeight nodes hi hj hij edges,
    fun hpos => ⟨?_, buildMatrix_row_sum edges nodes (lt_of_le_of_lt (Nat.zero_le i) hi) i⟩,
    fun hzero => ?_⟩
  · unfold buildNormalizedTrustMatrix
    dsimp only
    rw [if_pos hpos]
  · unfold buildNormalizedTrustMatrix
    dsimp only
    rw [if_neg (by rw [hzero]; exact lt_irrefl 0)]

/-- **C6.** `findPath` with `from` equal to `to` case-insensitively is
rejected before any graph traversal (the outcome is one of the two
rejection branches, never the searched branch) and carries no path; and
when no directed walk of length between `1` and `maxHops` reaches `to`
from `from`, the outcome carries no path (`null`), never an error — in
particular reducing `maxHops` below the length of the shortest directed
path yields `null`. -/
theorem findPath_no_path (graphEdges : List TrustEdge) (fromAddr toAddr : String)
    (maxHops : Nat) :
    (toLowerStr fromAddr = toLowerStr toAddr →
        (findPath graphEdges fromAddr toAddr maxHops = FindPathOutcome.invalid
          ∨ findPath graphEdges fromAddr toAddr maxHops = FindPathOutcome.sameAddress)
        ∧ outcomePath (findPath graphEdges fromAddr toAddr maxHops) = none)
    ∧ ((∀ l, l < maxHops → ∀ w ∈ edgeWalksRev graphEdges (toLowerStr fromAddr) (l + 1),
          walkEnd (toLowerStr fromAddr) w ≠ toLowerStr toAddr) →
        outcomePath (findPath graphEdges fromAddr toAddr maxHops) = none) := by
  constructor
  · intro heq
    unfold findPath
    by_cases hv : (isValidAddress fromAddr && isValidAddress toAddr) = true
    · rw [if_neg (not_not_intro hv), if_pos heq]
      exact ⟨Or.inr rfl, rfl⟩
    · rw [if_pos hv]
      exact ⟨Or.inl rfl, rfl⟩
  · intro hwalks
    unfold findPath
    split
    · rfl
    · split
      · rfl
      · unfold outcomePath findTrustPath
        rw [shortestWalk_eq_none hwalks]

/-- **C7.** Every `GraphPath` returned by the path finder has `totalWeight`
equal to the arithmetic mean of the weights of its edges (their sum divided
by the edge count, the path having at least one edge), satisfies
`edges.length = nodes.length - 1`, and has `hops` equal to `edges.length`. -/
theorem graphPath_invariants (graphEdges : List TrustEdge) (src dst : String)
    (maxHops : Nat) (p : GraphPath)
    (h : findTrustPath graphEdges src dst maxHops = some p) :
    p.totalWeight = (p.edges.map (fun e => e.weight)).sum / (p.edges.length : ℚ)
    ∧ p.edges.length = p.nodes.length - 1
    ∧ p.hops = p.edges.length
    ∧ 0 < p.edges.length := by
  unfold findTrustPath at h
  cases hsw : shortestWalk graphEdges (toLowerStr src) (toLowerStr dst) maxHops with
  | none =>
    rw [hsw] at h
    exact absurd h (by simp)
  | some wrev =>
    rw [hsw] at h
    obtain ⟨l, hl, hmem⟩ := shortestWalk_mem hsw
    have hlen := edgeWalksRev_length graphEdges (toLowerStr src) (l + 1) wrev hmem
    have hp : p = { nodes := toLowerStr src :: wrev.reverse.map (fun e => e.to_)
                    edges := wrev.reverse
                    totalWeight := (wrev.reverse.map (fun e => e.weight)).sum
                      / (wrev.reverse.length : ℚ)
                    hops := wrev.reverse.length } := by
      injection h with h
      exact h.symm
    subst hp
    refine ⟨rfl, ?_, rfl, ?_⟩
    · dsimp only
      rw [List.length_cons, List.length_map]
      omega
    · dsimp only
      rw [List.length_reverse, hlen]
      omega

/-- Witness for C2 on the edge list
`[A -> B (weight -2), A -> A (weight 5), A -> B (weight 3)]` with node list
`["A", "B"]` at entry `(0, 1)`: negative clamping, self-loop exclusion,
last-edge overwrite and row normalization all instantiated. -/
theorem trustMatrix_construction_witness :
    ((0 : Nat) < (["A", "B"] : List String).length)
    ∧ ((1 : Nat) < (["A", "B"] : List String).length)
    ∧ (rawMatrix
        [{ from_ := "A", to_ := "B", weight := -2, source := "t", timestamp := 0 },
          { from_ := "A", to_ := "A", weight := 5, source := "t", timestamp := 0 },
          { from_ := "A", to_ := "B", weight := 3, source := "t", timestamp := 0 }]
        ["A", "B"] 0 0 = 0
      ∧ ((0 : Nat) ≠ 1 → rawMatrix
          [{ from_ := "A", to_ := "B", weight := -2, source := "t", timestamp := 0 },
            { from_ := "A", to_ := "A", weight := 5, source := "t", timestamp := 0 },
            { from_ := "A", to_ := "B", weight := 3, source := "t", timestamp := 0 }]
          ["A", "B"] 0 1
          = lastEdgeWeight
            [{ from_ := "A", to_ := "B", weight := -2, source := "t", timestamp := 0 },
              { from_ := "A", to_ := "A", weight := 5, source := "t", timestamp := 0 },
              { from_ := "A", to_ := "B", weight := 3, source := "t", timestamp := 0 }]
            ["A", "B"] 0 1)
      ∧ (0 < rowSum (["A", "B"] : List String).length (rawMatrix
            [{ from_ := "A", to_ := "B", weight := -2, source := "t", timestamp := 0 },
              { from_ := "A", to_ := "A", weight := 5, source := "t", timestamp := 0 },
              { from_ := "A", to_ := "B", weight := 3, source := "t", timestamp := 0 }]
            ["A", "B"]) 0 →
          buildNormalizedTrustMatrix
              [{ from_ := "A", to_ := "B", weight := -2, source := "t", timestamp := 0 },
                { from_ := "A", to_ := "A", weight := 5, source := "t", timestamp := 0 },
                { from_ := "A", to_ := "B", weight := 3, source := "t", timestamp := 0 }]
              ["A", "B"] 0 1
              = rawMatrix
                [{ from_ := "A", to_ := "B", weight := -2, source := "t", timestamp := 0 },
                  { from_ := "A", to_ := "A", weight := 5, source := "t", timestamp := 0 },
                  { from_ := "A", to_ := "B", weight := 3, source := "t", timestamp := 0 }]
                ["A", "B"] 0 1
                / rowSum (["A", "B"] : List String).length (rawMatrix
                  [{ from_ := "A", to_ := "B", weight := -2, source := "t", timestamp := 0 },
                    { from_ := "A", to_ := "A", weight := 5, source := "t", timestamp := 0 },
                    { from_ := "A", to_ := "B", weight := 3, source := "t", timestamp := 0 }]
                  ["A", "B"]) 0
            ∧ ∑ k in Finset.range (["A", "B"] : List String).length,
                buildNormalizedTrustMatrix
                  [{ from_ := "A", to_ := "B", weight := -2, source := "t", timestamp := 0 },
                    { from_ := "A", to_ := "A", weight := 5, source := "t", timestamp := 0 },
                    { from_ := "A", to_ := "B", weight := 3, source := "t", timestamp := 0 }]
                  ["A", "B"] 0 k = 1)
      ∧ (rowSum (["A", "B"] : List String).length (rawMatrix
            [{ from_ := "A", to_ := "B", weight := -2, source := "t", timestamp := 0 },
              { from_ := "A", to_ := "A", weight := 5, source := "t", timestamp := 0 },
              { from_ := "A", to_ := "B", weight := 3, source := "t", timestamp := 0 }]
            ["A", "B"]) 0 = 0 →
          buildNormalizedTrustMatrix
            [{ from_ := "A", to_ := "B", weight := -2, source := "t", timestamp := 0 },
              { from_ := "A", to_ := "A", weight := 5, source := "t", timestamp := 0 },
              { from_ := "A", to_ := "B", weight := 3, source := "t", timestamp := 0 }]
            ["A", "B"] 0 1 = 1 / ((["A", "B"] : List String).length : ℚ))) :=
  ⟨by decide, by decide,
    trustMatrix_construction
      [{ from_ := "A", to_ := "B", weight := -2, source := "t", timestamp := 0 },
        { from_ := "A", to_ := "A", weight := 5, source := "t", timestamp := 0 },
        { from_ := "A", to_ := "B", weight := 3, source := "t", timestamp := 0 }]
      ["A", "B"] 0 1 (by decide) (by decide)⟩

/-- Witness for C6: a same-address query on a valid address is rejected
with no path, and a two-address query over the empty graph (which has no
walk of any length) yields no path. -/
theorem findPath_no_path_witness :
    (toLowerStr "0xaaaaaaaaaaaaaaaaaaaaaaaaaaaaaaaaaaaaaaaa"
        = toLowerStr "0xaaaaaaaaaaaaaaaaaaaaaaaaaaaaaaaaaaaaaaaa")
    ∧ outcomePath (findPath [] "0xaaaaaaaaaaaaaaaaaaaaaaaaaaaaaaaaaaaaaaaa"
        "0xaaaaaaaaaaaaaaaaaaaaaaaaaaaaaaaaaaaaaaaa" 5) = none
    ∧ (∀ l, l < 3 → ∀ w ∈ edgeWalksRev ([] : List TrustEdge)
          (toLowerStr "0xaaaaaaaaaaaaaaaaaaaaaaaaaaaaaaaaaaaaaaaa") (l + 1),
        walkEnd (toLowerStr "0xaaaaaaaaaaaaaaaaaaaaaaaaaaaaaaaaaaaaaaaa") w
          ≠ toLowerStr "0xbbbbbbbbbbbbbbbbbbbbbbbbbbbbbbbbbbbbbbbb")
    ∧ outcomePath (findPath [] "0xaaaaaaaaaaaaaaaaaaaaaaaaaaaaaaaaaaaaaaaa"
        "0xbbbbbbbbbbbbbbbbbbbbbbbbbbbbbbbbbbbbbbbb" 3) = none :=
  ⟨rfl,
    ((findPath_no_path [] "0xaaaaaaaaaaaaaaaaaaaaaaaaaaaaaaaaaaaaaaaa"
        "0xaaaaaaaaaaaaaaaaaaaaaaaaaaaaaaaaaaaaaaaa" 5).1 rfl).2,
    by decide,
    (findPath_no_path [] "0xaaaaaaaaaaaaaaaaaaaaaaaaaaaaaaaaaaaaaaaa"
        "0xbbbbbbbbbbbbbbbbbbbbbbbbbbbbbbbbbbbbbbbb" 3).2 (by decide)⟩

/-- Witness for C7 on the one-edge graph `[a -> b]`: the returned path has
mean weight `1`, one edge, two nodes and one hop. -/
theorem graphPath_invariants_witness :
    let p0 : GraphPath :=
      { nodes := ["a", "b"],
        edges := [{ from_ := "a", to_ := "b", weight := 1, source := "t", timestamp := 0 }],
        totalWeight := 1,
        hops := 1 }
    (findTrustPath
        [{ from_ := "a", to_ := "b", weight := 1, source := "t", timestamp := 0 }] "a" "b" 1
      = some p0)
    ∧ (p0.totalWeight = (p0.edges.map (fun e => e.weight)).sum / (p0.edges.length : ℚ)
      ∧ p0.edges.length = p0.nodes.length - 1
      ∧ p0.hops = p0.edges.length
      ∧ 0 < p0.edges.length) := by
  intro p0
  have h : findTrustPath
      [{ from_ := "a", to_ := "b", weight := 1, source := "t", timestamp := 0 }] "a" "b" 1
      = some p0 := by
    have hsw : shortestWalk
        [{ from_ := "a", to_ := "b", weight := 1, source := "t", timestamp := 0 }] "a" "b" 1
        = some [{ from_ := "a", to_ := "b", weight := 1, source := "t", timestamp := 0 }] := by
      decide
    unfold findTrustPath
    rw [show toLowerStr "a" = "a" from rfl, show toLowerStr "b" = "b" from rfl, hsw]
    norm_num [p0]
  exact ⟨h, graphPath_invariants
    [{ from_ := "a", to_ := "b", weight := 1, source := "t", timestamp := 0 }] "a" "b" 1 p0 h⟩

end Warden
